import Mathlib

/-!
Verification of the rule-evaluation core of `lego-rule-engine`
(`src/lego-rule-engine/packages/lego-rule-engine/src/rule.ts`).

The repository ships a single source file, `rule.ts`, containing the `Rule`
class: configuration setters (`setPriority`, `setConditions`, `setEvent`),
serialization (`toJSON`), the priority-tier grouping (`prioritizeConditions`)
and the recursive tiered evaluator (`evaluate` with its inner helpers
`evaluateCondition`, `evaluateConditions`, `prioritizeAndRun`,
`processResult`).

The collaborators referenced by `rule.ts` (`Condition`, `Engine`, `Almanac`,
`RuleResult`) are not part of the repository's sources; they are modelled
from the spec at their interface boundary, as the spec prescribes
(each such definition carries a `Modelled from the spec:` doc comment).

Modelling conventions:
* JavaScript promises that reject are embedded as `Except ErrCode`;
  a rejected promise is `.error code`.
* The in-place mutation of `result` / `factResult` annotations on condition
  nodes is embedded by returning an updated copy of the node.
* The set of facts whose resolution is attempted is returned as an explicit
  trace (`List String`), so that "this fact is never resolved" is a statement
  about the trace.
* Concurrent evaluation inside one priority tier (`Promise.all`) is
  linearized in input order; the claims under verification only concern
  which conditions are evaluated at all and the aggregate value, both of
  which are unaffected by the interleaving.
* The recursion of the source goes through dynamically computed priority
  tiers, so it is not structurally decreasing; we realise it with a fuel
  parameter.  The public wrappers supply fuel that dominates the size of the
  tree, and the out-of-fuel case returns a distinguished error code that
  adequate fuel never reaches.  No theorem below concludes anything from
  fuel exhaustion.
-/

/-- JavaScript error messages / error codes are embedded as strings. -/
abbrev ErrCode := String

/-- The distinguishable error kind raised by the fact store when a fact
cannot be resolved (`err.code === 'UNDEFINED_FACT'` in `rule.ts`). -/
def undefinedFactCode : ErrCode := "UNDEFINED_FACT"

/-- Artifact of the fuel embedding; unreachable under the fuel supplied by
the public wrappers. -/
def outOfFuelCode : ErrCode := "OUT_OF_FUEL"

/-- Fact values (the resolved left-hand side of a leaf comparison and the
expected right-hand value) are modelled as integers; their actual type is
irrelevant to every claim. -/
abbrev FactValue := Int

/-- The two boolean operators of a non-leaf condition node. -/
inductive BoolOp where
  | all
  | any
deriving DecidableEq

/-- A condition node, after the shape consumed by `rule.ts`: either a leaf
(fact reference, comparator name, expected value) or a boolean node
(`all`/`any` with ordered children).  `priority` is the optional explicit
priority; `result` and `factResult` are the mutable per-evaluation
annotation fields, embedded as `Option` fields of a functionally updated
copy. -/
inductive Condition where
  | leaf (fact : String) (comparator : String) (value : FactValue)
      (priority : Option Nat) (result : Option Bool) (factResult : Option FactValue)
  | branch (op : BoolOp) (children : List Condition) (priority : Option Nat)
      (result : Option Bool)

/-- `condition.priority` of `rule.ts` (line 142). -/
def conditionPriority : Condition → Option Nat
  | .leaf _ _ _ p _ _ => p
  | .branch _ _ p _ => p

/-- `condition.fact`: defined for leaves; a boolean node has no fact
(accessing it yields `undefined` in the source). -/
def conditionFact : Condition → Option String
  | .leaf f _ _ _ _ _ => some f
  | .branch _ _ _ _ => none

/-- The `result` annotation field of a node. -/
def conditionResultField : Condition → Option Bool
  | .leaf _ _ _ _ r _ => r
  | .branch _ _ _ r => r

/-- Modelled from the spec: the registry's per-fact metadata — `getFact`
returns an object whose `priority` may be unset (`engine.ts` is not under
`src/`; §6 of the spec gives the registry contract). -/
structure EngineFact where
  priority : Option Nat

/-- Modelled from the spec: the Engine / registry collaborator consumed by
`rule.ts` — a fact-priority lookup and the `allowUndefinedFacts` flag
(`engine.ts` is not under `src/`; §6 of the spec gives the contract). -/
structure Engine where
  getFact : String → Option EngineFact
  allowUndefinedFacts : Bool

/-- The outcome of one leaf evaluation against the fact store: either an
evaluation result `{result, leftHandSideValue}` or a rejection carrying an
error code. -/
inductive LeafOutcome where
  | success (result : Bool) (leftHandSideValue : FactValue)
  | failure (code : ErrCode)

/-- Modelled from the spec: the Almanac / fact-store collaborator.
`condition.evaluate(almanac, operators)` resolves the leaf's fact and
applies the comparator; it may reject with a distinguishable
"undefined fact" error kind (`almanac.ts` / `condition.ts` are not under
`src/`; §6 of the spec gives the contract).  The oracle is keyed by the
leaf's own data. -/
structure Almanac where
  evalLeaf : String → String → FactValue → LeafOutcome

/-! ### Priority-tier grouping (`prioritizeConditions`, rule.ts 138–163) -/

/-- Effective priority of one condition, exactly as computed in the
`reduce` of `prioritizeConditions`:
`let priority = condition.priority; if (!priority) { let fact = this.engine ?
this.engine.getFact(condition.fact) : null; priority = (fact &&
fact.priority) || 1; }`.
Note both falsiness checks: an explicit priority of `0` is falsy and falls
back, and a fact priority of `0` is falsy and yields the default `1`. -/
def effectivePriority (eng : Option Engine) (c : Condition) : Nat :=
  match conditionPriority c with
  | some p => if p = 0 then factPriorityFallback eng c else p
  | none => factPriorityFallback eng c
where
  /-- `(fact && fact.priority) || 1`, with `fact = this.engine ?
  this.engine.getFact(condition.fact) : null`. -/
  factPriorityFallback (eng : Option Engine) (c : Condition) : Nat :=
    match eng with
    | none => 1
    | some e =>
      match conditionFact c with
      | none => 1
      | some f =>
        match e.getFact f with
        | none => 1
        | some ef =>
          match ef.priority with
          | none => 1
          | some q => if q = 0 then 1 else q

/-- Insert into a descending-sorted list of priorities. -/
def insertDesc (p : Nat) : List Nat → List Nat
  | [] => [p]
  | q :: qs => if q ≤ p then p :: q :: qs else q :: insertDesc p qs

/-- Sort priorities in descending numeric order.  This models
`Object.keys(factSets).sort((a, b) => Number(a) > Number(b) ? -1 : 1)`:
for the distinct numeric keys produced by the grouping, that comparator is
exactly descending numeric order. -/
def sortDesc : List Nat → List Nat
  | [] => []
  | p :: ps => insertDesc p (sortDesc ps)

/-- Group a list by a numeric key and emit the groups ordered by key
descending, each group keeping the input order of its members.  This is the
shape of `prioritizeConditions`: the `reduce` builds the mapping
priority → conditions (members pushed in input order), and the sorted key
list is mapped back to its buckets. -/
def prioritizeBy {α : Type} (key : α → Nat) (xs : List α) : List (List α) :=
  (sortDesc ((xs.map key).dedup)).map (fun p => xs.filter (fun x => key x == p))

/-- The descending-ordered distinct effective priorities of a sibling
list — the keys of the tier grouping. -/
def tierPriorities (eng : Option Engine) (conds : List Condition) : List Nat :=
  sortDesc ((conds.map (effectivePriority eng)).dedup)

/-- `prioritizeConditions` (rule.ts 138–163): partition a sibling list into
priority tiers, ordered by descending effective priority. -/
def prioritizeConditions (eng : Option Engine) (conds : List Condition) :
    List (List Condition) :=
  prioritizeBy (effectivePriority eng) conds

/-! ### Tiered evaluation machinery (rule.ts 181–279)

`runSet` models the `Promise.all` fan-out of `evaluateConditions` over one
tier, `evaluateConditionsWith` its aggregate (`every` / `some` applied to
`result === true`), and `runTiers` the sequential cursor chain of
`prioritizeAndRun`.  They are generic in the element type and in the
child evaluator, which returns `(passes, updated element, resolved-fact
trace)`. -/

/-- Evaluate every member of one tier, in input order, collecting the
boolean results, the updated elements and the concatenated trace.
Models `Promise.all(conditions.map(evaluateCondition))` (rule.ts 230). -/
def runSet {α β : Type} (ev : α → Except ErrCode (Bool × β × List String)) :
    List α → Except ErrCode (List Bool × List β × List String)
  | [] => .ok ([], [], [])
  | x :: xs =>
    match ev x with
    | .error e => .error e
    | .ok (b, u, t) =>
      match runSet ev xs with
      | .error e => .error e
      | .ok (bs, us, ts) => .ok (b :: bs, u :: us, t ++ ts)

/-- `method.call(conditionResults, result => result === true)` with
`method = Array.prototype.every` for `all` and `Array.prototype.some` for
`any` (rule.ts 233, 252–255). -/
def aggregateBool (op : BoolOp) (bs : List Bool) : Bool :=
  match op with
  | .all => bs.all (fun b => b == true)
  | .any => bs.any (fun b => b == true)

/-- `evaluateConditions` (rule.ts 219–236): evaluate one tier and compute
its aggregate under the enclosing operator. -/
def evaluateConditionsWith {α β : Type}
    (ev : α → Except ErrCode (Bool × β × List String)) (op : BoolOp)
    (set : List α) : Except ErrCode (Bool × List β × List String) :=
  match runSet ev set with
  | .error e => .error e
  | .ok (bs, us, ts) => .ok (aggregateBool op bs, us, ts)

/-- The sequential cursor chain of `prioritizeAndRun` (rule.ts 257–278):
the running value starts as `null` (`none`), each link first checks whether
the running value is already determinative for the operator — `true` under
`any`, `false` under `all` — and if so carries it forward without touching
its tier; otherwise it evaluates its tier and the tier's aggregate becomes
the new running value.  (The source's per-tier `stop` flag is initialized
to `false` inside each link and can never have been set when it is read, so
it is inert; the short-circuit is carried entirely by the running value.) -/
def runTiers {α β : Type} (ev : α → Except ErrCode (Bool × β × List String))
    (op : BoolOp) :
    List (List α) → Option Bool → Except ErrCode (Option Bool × List β × List String)
  | [], acc => .ok (acc, [], [])
  | set :: rest, acc =>
    if op = .any ∧ acc = some true then
      runTiers ev op rest (some true)
    else if op = .all ∧ acc = some false then
      runTiers ev op rest (some false)
    else
      match evaluateConditionsWith ev op set with
      | .error e => .error e
      | .ok (setResult, us, ts) =>
        match runTiers ev op rest (some setResult) with
        | .error e => .error e
        | .ok (acc2, us2, ts2) => .ok (acc2, us ++ us2, ts ++ ts2)

/-- Reassemble a sibling list after tier evaluation: members whose index
carries an update (they were evaluated) are replaced by their annotated
copy; skipped members stay as they were.  This embeds the in-place
mutation of the source, where evaluated nodes are annotated and skipped
nodes are untouched. -/
def applyUpdates (orig : List Condition) (updates : List (Nat × Condition)) :
    List Condition :=
  orig.enum.map (fun ic =>
    match updates.find? (fun u => u.1 == ic.1) with
    | some u => u.2
    | none => ic.2)

/-- Leaf evaluation (rule.ts 196–210): resolve the fact and apply the
comparator via the almanac; on success annotate `factResult` and `result`
on the node; on rejection, swallow the error and contribute `false` iff
the engine allows undefined facts and the error code is `UNDEFINED_FACT` —
note that this `.catch` path does not write the node's annotations —
otherwise propagate the rejection.  Accessing `this.engine!.operators`
with no engine set is the source's `TypeError` crash. -/
def evaluateLeaf (eng : Option Engine) (alm : Almanac) (f cmp : String)
    (v : FactValue) (p : Option Nat) (r : Option Bool) (fr : Option FactValue) :
    Except ErrCode (Bool × Condition × List String) :=
  match eng with
  | none => .error "TypeError: this.engine is undefined"
  | some e =>
    match alm.evalLeaf f cmp v with
    | .success passes lhs => .ok (passes, .leaf f cmp v p (some passes) (some lhs), [f])
    | .failure code =>
      if e.allowUndefinedFacts && (code == undefinedFactCode) then
        .ok (false, .leaf f cmp v p r fr, [f])
      else .error code

/-- The tiered evaluation of one sibling list under an enclosing operator
(`prioritizeAndRun`, rule.ts 248–279), generic in the child evaluator:
an empty sibling list resolves `true` immediately; otherwise the list is
partitioned into tiers (children are indexed so updates can be merged back)
and the cursor chain runs over the ordered tiers. -/
def prioritizeAndRunWith
    (evalChild : Condition → Except ErrCode (Bool × Condition × List String))
    (eng : Option Engine) (conds : List Condition) (op : BoolOp) :
    Except ErrCode (Option Bool × List Condition × List String) :=
  if conds.isEmpty then .ok (some true, conds, [])
  else
    match runTiers
        (fun ic : Nat × Condition =>
          match evalChild ic.2 with
          | .error e => .error e
          | .ok (b, c2, t) => .ok (b, (ic.1, c2), t))
        op
        (prioritizeBy (fun ic : Nat × Condition => effectivePriority eng ic.2)
          conds.enum)
        none with
    | .error e => .error e
    | .ok (acc, updates, trace) => .ok (acc, applyUpdates conds updates, trace)

/-- `evaluateCondition` (rule.ts 181–211) with fuel: a boolean node
evaluates its children through the tiered runner and records
`result = (comparisonValue === true)` on itself; a leaf is evaluated
against the almanac. -/
def evalCondFuel : Nat → Option Engine → Almanac → Condition →
    Except ErrCode (Bool × Condition × List String)
  | 0, _, _, _ => .error outOfFuelCode
  | fuel+1, eng, alm, c =>
    match c with
    | .leaf f cmp v p r fr => evaluateLeaf eng alm f cmp v p r fr
    | .branch op cs p _ =>
      match prioritizeAndRunWith (evalCondFuel fuel eng alm) eng cs op with
      | .error e => .error e
      | .ok (res, newCs, trace) =>
        let passes : Bool := res == some true
        .ok (passes, .branch op newCs p (some passes), trace)

mutual
/-- Size of a condition tree, used only to supply sufficient fuel. -/
def condSize : Condition → Nat
  | .leaf _ _ _ _ _ _ => 1
  | .branch _ cs _ _ => 1 + condsSize cs
def condsSize : List Condition → Nat
  | [] => 0
  | c :: cs => condSize c + condsSize cs
end

/-- `evaluateCondition` of the source: the fuel wrapper. -/
def evaluateCondition (eng : Option Engine) (alm : Almanac) (c : Condition) :
    Except ErrCode (Bool × Condition × List String) :=
  evalCondFuel (2 * condSize c) eng alm c

/-- `prioritizeAndRun` of the source: the fuel wrapper over one sibling
list. -/
def prioritizeAndRun (eng : Option Engine) (alm : Almanac)
    (conds : List Condition) (op : BoolOp) :
    Except ErrCode (Option Bool × List Condition × List String) :=
  prioritizeAndRunWith (fun c => evalCondFuel (2 * condsSize conds) eng alm c)
    eng conds op

/-! ### The Rule class: data, evaluation entry point, notification -/

/-- The event payload: `{type, params?}` (`setEvent` copies exactly these
two fields).  `params` is an arbitrary mapping; it is modelled as an
optional association list. -/
structure RuleAction where
  type : String
  params : Option (List (String × String)) := none
deriving DecidableEq

/-- A JavaScript number as far as `setPriority` can observe it: an integer
or `NaN` (the result of `parseInt` on a non-numeric string). -/
inductive JSNum where
  | num (i : Int)
  | nan
deriving DecidableEq

/-- `priority <= 0` on a JavaScript number: every comparison with `NaN` is
false. -/
def jsLeZero : JSNum → Bool
  | .num i => i ≤ 0
  | .nan => false

/-- The input accepted by `setPriority` (`number | string`), abstracted to
what `parseInt(p, 10)` can make of it: a value parsing to an integer, or a
(truthy, non-numeric) string parsing to `NaN`. -/
inductive PriorityInput where
  | intParse (i : Int)
  | nonNumeric
deriving DecidableEq

/-- `parseInt(priority, 10)` (rule.ts 61) on the abstracted input. -/
def parseIntJS : PriorityInput → JSNum
  | .intParse i => .num i
  | .nonNumeric => .nan

/-- JavaScript falsiness of the raw constructor option
`scopedOptions.priority` (used in `(scopedOptions && scopedOptions.priority)
|| 1`): the number `0` is falsy; a non-empty string is truthy. -/
def priorityInputFalsy : PriorityInput → Bool
  | .intParse i => i == 0
  | .nonNumeric => false

/-- The `Rule` instance state: the four fields of the class
(rule.ts 17–20).  All of them start unset. -/
structure Rule where
  priority : Option JSNum := none
  conditions : Option Condition := none
  event : Option RuleAction := none
  engine : Option Engine := none

/-- Modelled from the spec: the Evaluation Result (`rule-result.ts` is not
under `src/`; §3 of the spec): a snapshot of the (annotated) condition
tree, event payload and priority, whose `result` is set exactly once via
`setResult`. -/
structure RuleResult where
  conditions : Condition
  event : Option RuleAction
  priority : Option JSNum
  result : Option Bool := none

/-- Modelled from the spec: `ruleResult.setResult(result)`. -/
def RuleResult.setResult (rr : RuleResult) (r : Option Bool) : RuleResult :=
  { rr with result := r }

/-- One notification fired by `processResult`: `this.emit('success', ...)`
or `this.emit('failure', ...)` with the rule result's event payload.  The
evaluation returns the emission as a value; on a rejected evaluation no
emission value exists, which embeds that the `.then(processResult)` handler
of a rejected chain never runs. -/
inductive Emission where
  | success (event : Option RuleAction)
  | failure (event : Option RuleAction)
deriving DecidableEq

/-- `processResult` (rule.ts 303–309): decorate the rule result with the
final value and emit `success` when it is truthy (`=== true` once the
chain resolves a boolean), `failure` otherwise. -/
def processResult (rr : RuleResult) (result : Option Bool) :
    RuleResult × Emission :=
  let rr2 := rr.setResult result
  if result == some true then (rr2, .success rr2.event)
  else (rr2, .failure rr2.event)

/-- `Rule.evaluate(almanac)` (rule.ts 170–320): require a conditions root,
build the rule result, run the root's children through `anyOperation` /
`allOperation` according to which of `conditions.any` / `conditions.all`
is populated, then `processResult`.  A leaf root (impossible through
`setConditions`) would crash the source on `conditions.all.length`; it is
embedded as a rejection.  The root node's own `result` annotation is never
written (only `evaluateCondition` writes it, and it is not called on the
root). -/
def Rule.evaluate (rule : Rule) (alm : Almanac) :
    Except ErrCode (RuleResult × Emission × List String) :=
  match rule.conditions with
  | none => .error "Rule: evaluate () requires the rule to have a conditions property"
  | some conds =>
    match conds with
    | .leaf _ _ _ _ _ _ => .error "TypeError: conditions root is not a boolean operator"
    | .branch op cs p r =>
      match prioritizeAndRun rule.engine alm cs op with
      | .error e => .error e
      | .ok (res, newCs, trace) =>
        let rr : RuleResult :=
          { conditions := .branch op newCs p r, event := rule.event,
            priority := rule.priority }
        let pr := processResult rr res
        .ok (pr.1, pr.2, trace)

/-! ### Configuration setters (rule.ts 31–108) and serialization -/

/-- `setPriority` (rule.ts 60–69): parse, reject a parsed value `<= 0`
(`NaN` compares false and passes), store. -/
def Rule.setPriority (rule : Rule) (p : PriorityInput) : Except ErrCode Rule :=
  let parsed := parseIntJS p
  if jsLeZero parsed then .error "Priority must be greater than zero"
  else .ok { rule with priority := some parsed }

/-- A node of a conditions *definition* (the plain-object shape fed to
`setConditions` / rendered by `toJSON`), mirroring `Condition` without the
per-evaluation annotation fields. -/
inductive ConditionDef where
  | leafDef (fact : String) (comparator : String) (value : FactValue)
      (priority : Option Nat)
  | branchDef (op : BoolOp) (children : List ConditionDef) (priority : Option Nat)

/-- The top-level `conditions` definition object: it may carry an `all`
key, an `any` key (`hasOwnProperty` is modelled as the field being
populated), and an optional explicit priority. -/
structure ConditionsOptions where
  all : Option (List ConditionDef) := none
  any : Option (List ConditionDef) := none
  priority : Option Nat := none

mutual
/-- Modelled from the spec: the external `Condition` constructor parses a
definition node into a condition node (`condition.ts` is not under `src/`;
§2 and §3 of the spec describe the node shape; nested nodes are assumed
well-formed by the external parser). -/
def mkConditionOfDef : ConditionDef → Condition
  | .leafDef f cmp v p => .leaf f cmp v p none none
  | .branchDef op cs p => .branch op (mkConditionsOfDefs cs) p none
def mkConditionsOfDefs : List ConditionDef → List Condition
  | [] => []
  | d :: ds => mkConditionOfDef d :: mkConditionsOfDefs ds
end

/-- Modelled from the spec: `new Condition(conditions)` on the root
definition object.  Which operator the external parser prefers when both
keys are populated is not observable by any claim; `all` is taken first.
The unreachable both-`none` case (excluded by the `setConditions` guard)
is mapped to an empty `all` node. -/
def mkRootCondition (opts : ConditionsOptions) : Condition :=
  match opts.all with
  | some cs => .branch .all (cs.map mkConditionOfDef) opts.priority none
  | none =>
    match opts.any with
    | some cs => .branch .any (cs.map mkConditionOfDef) opts.priority none
    | none => .branch .all [] opts.priority none

/-- `setConditions` (rule.ts 75–81): reject only when the definition has
*neither* an `all` nor an `any` key; otherwise construct and store the
root node. -/
def Rule.setConditions (rule : Rule) (opts : ConditionsOptions) :
    Except ErrCode Rule :=
  if opts.all.isNone && opts.any.isNone then
    .error "\"conditions\" root must contain a single instance of \"all\" or \"any\""
  else .ok { rule with conditions := some (mkRootCondition opts) }

/-- `setEvent` (rule.ts 89–98): require an event object with a `type`;
copy `type` and, when present, `params` (the model's `RuleAction` carries
exactly those two fields). -/
def Rule.setEvent (rule : Rule) (event : Option RuleAction) : Except ErrCode Rule :=
  match event with
  | none => .error "Rule: setEvent() requires event object"
  | some e => .ok { rule with event := some { type := e.type, params := e.params } }

/-- `setEngine` (rule.ts 105–108). -/
def Rule.setEngine (rule : Rule) (engine : Engine) : Rule :=
  { rule with engine := some engine }

/-- The constructor options (rule.ts 10–14 plus the `onSuccess` /
`onFailure` callables accepted at rule.ts 42–47).  For the listeners only
their presence matters to the claims.  A serialized-text definition is
`JSON.parse`d into this same shape first; the parse of a rendering is
modelled as the identity on the structured options. -/
structure RuleOptions where
  conditions : Option ConditionsOptions := none
  event : Option RuleAction := none
  priority : Option PriorityInput := none
  onSuccess : Bool := false
  onFailure : Bool := false

/-- The observable processing steps of the constructor, in the order they
are performed. -/
inductive BuildStep where
  | conditionsSet
  | successListenerAdded
  | failureListenerAdded
  | prioritySet
  | eventSet
deriving DecidableEq

/-- The tail of the constructor after the listener registrations:
`setPriority(options.priority || 1)` then
`setEvent(options.event || {type: 'unknown'})` (rule.ts 49–53). -/
def constructTail (r1 : Rule) (steps : List BuildStep)
    (priorityOpt : Option PriorityInput) (eventOpt : Option RuleAction) :
    Except ErrCode (Rule × List BuildStep) :=
  let pIn : PriorityInput :=
    match priorityOpt with
    | some p => if priorityInputFalsy p then .intParse 1 else p
    | none => .intParse 1
  match r1.setPriority pIn with
  | .error e => .error e
  | .ok r2 =>
    let ev : RuleAction := eventOpt.getD { type := "unknown" }
    match r2.setEvent (some ev) with
    | .error e => .error e
    | .ok r3 => .ok (r3, steps ++ [BuildStep.prioritySet, BuildStep.eventSet])

/-- The `Rule` constructor (rule.ts 31–54): process `conditions` when
present, then register the `onSuccess` / `onFailure` listeners when
present, then `setPriority(options.priority || 1)`, then
`setEvent(options.event || {type: 'unknown'})`.  The returned trace lists
the steps in the order the source performs them. -/
def Rule.construct (opts : RuleOptions) : Except ErrCode (Rule × List BuildStep) :=
  let r0 : Rule := {}
  match (match opts.conditions with
         | some c => (r0.setConditions c).map (fun r => (r, [BuildStep.conditionsSet]))
         | none => .ok (r0, [])) with
  | .error e => .error e
  | .ok (r1, t1) =>
    let t2 := t1 ++ (if opts.onSuccess then [BuildStep.successListenerAdded] else [])
    let t3 := t2 ++ (if opts.onFailure then [BuildStep.failureListenerAdded] else [])
    constructTail r1 t3 opts.priority opts.event

mutual
/-- Modelled from the spec: `Condition.toJSON(false)` renders a condition
node back to its definition shape, recursively, dropping the
per-evaluation annotations (`condition.ts` is not under `src/`; §6 of the
spec: the Rule renders itself back to the same definition shape,
conditions recursively rendered the same way). -/
def conditionDefOfCondition : Condition → ConditionDef
  | .leaf f cmp v p _ _ => .leafDef f cmp v p
  | .branch op cs p _ => .branchDef op (conditionDefsOfConditions cs) p
def conditionDefsOfConditions : List Condition → List ConditionDef
  | [] => []
  | c :: cs => conditionDefOfCondition c :: conditionDefsOfConditions cs
end

/-- Modelled from the spec: the rendering of the root condition node back
to the `conditions` definition object. -/
def rootConditionsOptions : Condition → ConditionsOptions
  | .branch .all cs p _ => { all := some (cs.map conditionDefOfCondition), priority := p }
  | .branch .any cs p _ => { any := some (cs.map conditionDefOfCondition), priority := p }
  | .leaf f cmp v p _ _ =>
    { all := some [.leafDef f cmp v p] }

/-- The rendered shape of `toJSON` (rule.ts 110–128): `{conditions:
this.conditions ? this.conditions.toJSON(false) : null, priority, event}`.
Serializing to text and parsing it back is modelled as the identity on
this structure, except that a `NaN` priority is rendered by
`JSON.stringify` as `null`. -/
structure RuleJSON where
  conditions : Option ConditionsOptions
  priority : Option JSNum
  event : Option RuleAction

/-- `toJSON` (rule.ts 110–128). -/
def Rule.toJSON (rule : Rule) : RuleJSON :=
  { conditions := rule.conditions.map rootConditionsOptions,
    priority := rule.priority,
    event := rule.event }

/-- The constructor-side reading of a serialized `priority`: an integer
number parses back to itself; a `NaN` was rendered as `null`, which is
absent. -/
def jsonPriorityToInput : Option JSNum → Option PriorityInput
  | some (.num i) => some (.intParse i)
  | some .nan => none
  | none => none

/-- Round trip: render a rule with `toJSON` and construct a new `Rule`
from the rendered definition (rule.ts 31–54 over the shape produced at
rule.ts 119–123). -/
def Rule.reconstruct (rule : Rule) : Except ErrCode (Rule × List BuildStep) :=
  Rule.construct
    { conditions := rule.toJSON.conditions,
      event := rule.toJSON.event,
      priority := jsonPriorityToInput rule.toJSON.priority,
      onSuccess := false,
      onFailure := false }

/-! ### Concrete fixtures used by counterexamples and witnesses -/

/-- A registry that knows no facts but tolerates undefined facts. -/
def undefFactEngine : Engine where
  getFact := fun _ => none
  allowUndefinedFacts := true

/-- A fact store that rejects every resolution with the undefined-fact
error kind. -/
def undefFactAlmanac : Almanac where
  evalLeaf := fun _ _ _ => .failure "UNDEFINED_FACT"

/-- A fresh (never annotated) leaf condition. -/
def undefFactLeaf : Condition := .leaf "age" "equal" 21 none none none

/-- A conditions definition carrying both an `all` and an `any` key. -/
def bothKeysOptions : ConditionsOptions := { all := some [], any := some [] }

/-- A registry whose fact-priority lookup answers `5` for every fact. -/
def factPriorityFiveEngine : Engine where
  getFact := fun _ => some { priority := some 5 }
  allowUndefinedFacts := false

/-- A leaf with the explicit priority `0`. -/
def zeroPriorityLeaf : Condition := .leaf "a" "equal" 0 (some 0) none none

/-- A leaf with the explicit priority `3`. -/
def threePriorityLeaf : Condition := .leaf "b" "equal" 0 (some 3) none none

/-- The rule-priority invariant of the spec's data model (§3):
`priority` is an integer `>= 1`. -/
def jsPriorityInvariant (j : JSNum) : Prop := ∃ i : Int, j = .num i ∧ 1 ≤ i

/-- Constructor options with conditions, both listeners, a priority and an
event. -/
def listenerOptions : RuleOptions :=
  { conditions := some { all := some [] },
    event := some { type := "evt" },
    priority := some (.intParse 2),
    onSuccess := true,
    onFailure := true }

/-- The step trace the constructor actually produces for
`listenerOptions`. -/
def listenerTrace : List BuildStep :=
  [.conditionsSet, .successListenerAdded, .failureListenerAdded,
   .prioritySet, .eventSet]

/-- The rule the constructor actually produces for `listenerOptions`. -/
def listenerRule : Rule :=
  { conditions := some (.branch .all [] none none),
    priority := some (.num 2),
    event := some { type := "evt" } }

/-- A fact store that rejects every resolution with a generic error. -/
def failAlmanac : Almanac where
  evalLeaf := fun _ _ _ => .failure "BOOM"

/-- A configured rule over a single leaf, with a strict registry. -/
def failRule : Rule :=
  { conditions := some (.branch .all [.leaf "f" "equal" 0 none none none] none none),
    engine := some { getFact := fun _ => none, allowUndefinedFacts := false },
    event := some { type := "t" },
    priority := some (.num 1) }

/-- A fact store resolving `age` to `21` with a truthy comparison. -/
def eligibleAlmanac : Almanac where
  evalLeaf := fun f _ _ => if f = "age" then .success true 21 else .failure "BOOM"

/-- A configured rule whose single leaf passes under `eligibleAlmanac`. -/
def eligibleRule : Rule :=
  { conditions := some (.branch .all [.leaf "age" "gte" 18 none none none] none none),
    engine := some { getFact := fun _ => none, allowUndefinedFacts := false },
    event := some { type := "eligible" },
    priority := some (.num 1) }

/-- The evaluation result `eligibleRule` produces under
`eligibleAlmanac`. -/
def eligibleRuleResult : RuleResult :=
  { conditions := .branch .all [.leaf "age" "gte" 18 none (some true) (some 21)] none none,
    event := some { type := "eligible" },
    priority := some (.num 1),
    result := some true }

/-- A configured rule used by the serialization round trip. -/
def roundtripRule : Rule :=
  { conditions := some (.branch .all [.leaf "age" "gte" 18 none none none] none none),
    priority := some (.num 2),
    event := some { type := "eligible" } }

/-! ### Helper lemmas about the descending sort -/

theorem insertDesc_perm (p : Nat) : ∀ l : List Nat, (insertDesc p l).Perm (p :: l)
  | [] => List.Perm.refl _
  | q :: qs => by
    by_cases h : q ≤ p
    · simp [insertDesc, h]
    · simp only [insertDesc, if_neg h]
      exact ((insertDesc_perm p qs).cons q).trans (List.Perm.swap p q qs)

theorem sortDesc_perm : ∀ l : List Nat, (sortDesc l).Perm l
  | [] => List.Perm.refl _
  | p :: ps => (insertDesc_perm p (sortDesc ps)).trans ((sortDesc_perm ps).cons p)

theorem insertDesc_sorted (p : Nat) :
    ∀ l : List Nat, l.Sorted (· ≥ ·) → (insertDesc p l).Sorted (· ≥ ·)
  | [], _ => by simp [insertDesc]
  | q :: qs, h => by
    rcases List.sorted_cons.mp h with ⟨hq, hqs⟩
    by_cases hpq : q ≤ p
    · simp only [insertDesc, if_pos hpq]
      refine List.sorted_cons.mpr ⟨?_, h⟩
      intro b hb
      rcases List.mem_cons.mp hb with rfl | hb
      · exact hpq
      · exact le_trans (hq b hb) hpq
    · simp only [insertDesc, if_neg hpq]
      refine List.sorted_cons.mpr ⟨?_, insertDesc_sorted p qs hqs⟩
      intro b hb
      rcases List.mem_cons.mp ((insertDesc_perm p qs).mem_iff.mp hb) with rfl | hb
      · exact le_of_not_le hpq
      · exact hq b hb

theorem sortDesc_sorted : ∀ l : List Nat, (sortDesc l).Sorted (· ≥ ·)
  | [] => by simp [sortDesc]
  | p :: ps => insertDesc_sorted p (sortDesc ps) (sortDesc_sorted ps)

theorem sortDesc_sorted_gt (l : List Nat) (h : l.Nodup) :
    (sortDesc l).Sorted (· > ·) := by
  have h1 : (sortDesc l).Sorted (· ≥ ·) := sortDesc_sorted l
  have h2 : (sortDesc l).Nodup := (sortDesc_perm l).symm.nodup h
  exact (List.Pairwise.and h1 h2).imp
    (fun hab => lt_of_le_of_ne hab.1 (Ne.symm hab.2))

theorem tierPriorities_sorted (eng : Option Engine) (conds : List Condition) :
    (tierPriorities eng conds).Sorted (· > ·) :=
  sortDesc_sorted_gt _ (List.nodup_dedup _)

/-! ### Helper lemmas about the tier runner -/

theorem runTiers_carry {α β : Type}
    (ev : α → Except ErrCode (Bool × β × List String)) (op : BoolOp)
    (acc : Option Bool)
    (h : (op = .any ∧ acc = some true) ∨ (op = .all ∧ acc = some false)) :
    ∀ sets : List (List α), runTiers ev op sets acc = .ok (acc, [], []) := by
  intro sets
  induction sets with
  | nil => rfl
  | cons set rest ih =>
    rcases h with ⟨hop, hacc⟩ | ⟨hop, hacc⟩ <;> subst hop <;> subst hacc <;>
      simpa [runTiers] using ih


theorem runTiers_ok_isSome {α β : Type}
    (ev : α → Except ErrCode (Bool × β × List String)) (op : BoolOp) :
    ∀ (sets : List (List α)) (acc res : Option Bool) (us : List β)
      (ts : List String),
      runTiers ev op sets acc = .ok (res, us, ts) →
      (acc.isSome ∨ sets ≠ []) → res.isSome := by
  intro sets
  induction sets with
  | nil =>
    intro acc res us ts h hd
    simp only [runTiers] at h
    rcases hd with hd | hd
    · cases h
      exact hd
    · exact absurd rfl hd
  | cons set rest ih =>
    intro acc res us ts h _
    simp only [runTiers] at h
    split_ifs at h with h1 h2
    · exact ih (some true) res us ts h (Or.inl rfl)
    · exact ih (some false) res us ts h (Or.inl rfl)
    · cases hset : evaluateConditionsWith ev op set with
      | error e =>
        rw [hset] at h
        dsimp only at h
        cases h
      | ok v =>
        obtain ⟨sr, us1, ts1⟩ := v
        rw [hset] at h
        dsimp only at h
        cases hrest : runTiers ev op rest (some sr) with
        | error e =>
          rw [hrest] at h
          dsimp only at h
          cases h
        | ok w =>
          obtain ⟨acc2, us2, ts2⟩ := w
          rw [hrest] at h
          dsimp only at h
          cases h
          exact ih (some sr) _ _ _ hrest (Or.inl rfl)

theorem flattenBucketsPerm {α : Type} (key : α → Nat) :
    ∀ (ks : List Nat) (xs : List α), ks.Nodup → (∀ x ∈ xs, key x ∈ ks) →
      ((ks.map (fun k => xs.filter (fun x => key x == k))).flatten).Perm xs := by
  intro ks
  induction ks with
  | nil =>
    intro xs _ hcov
    cases xs with
    | nil => simp
    | cons a as => exact absurd (hcov a (by simp)) (by simp)
  | cons k ks ih =>
    intro xs hnd hcov
    have hks : k ∉ ks ∧ ks.Nodup := by simpa [List.nodup_cons] using hnd
    have hcongr : ∀ k' ∈ ks,
        xs.filter (fun x => key x == k')
          = (xs.filter (fun x => !(key x == k))).filter (fun x => key x == k') := by
      intro k' hk'
      have hne : k' ≠ k := fun hkk => hks.1 (hkk ▸ hk')
      rw [List.filter_filter]
      refine (List.filter_congr ?_)
      intro x _
      by_cases hx : key x == k'
      · have hkk : (key x == k) = false := by
          have hx' : key x = k' := by simpa using hx
          simp [hx', hne]
        simp [hx, hkk]
      · simp at hx
        simp [hx]
    have hmapeq :
        ks.map (fun k' => xs.filter (fun x => key x == k'))
          = ks.map (fun k' =>
              (xs.filter (fun x => !(key x == k))).filter (fun x => key x == k')) :=
      List.map_congr_left hcongr
    have hcov' : ∀ x ∈ xs.filter (fun x => !(key x == k)), key x ∈ ks := by
      intro x hx
      rcases List.mem_filter.mp hx with ⟨hxs, hxne⟩
      rcases List.mem_cons.mp (hcov x hxs) with h | h
      · simp [h] at hxne
      · exact h
    have hih := ih (xs.filter (fun x => !(key x == k))) hks.2 hcov'
    have hgoal :
        ((k :: ks).map (fun k' => xs.filter (fun x => key x == k'))).flatten
          = xs.filter (fun x => key x == k)
            ++ (ks.map (fun k' =>
                (xs.filter (fun x => !(key x == k))).filter
                  (fun x => key x == k'))).flatten := by
      rw [List.map_cons, List.flatten_cons, hmapeq]
    rw [hgoal]
    exact (hih.append_left _).trans (List.filter_append_perm _ xs)

theorem prioritizeBy_flatten_perm {α : Type} (key : α → Nat) (xs : List α) :
    ((prioritizeBy key xs).flatten).Perm xs := by
  refine flattenBucketsPerm key _ xs ?_ ?_
  · exact (sortDesc_perm _).symm.nodup (List.nodup_dedup _)
  · intro x hx
    exact (sortDesc_perm _).symm.mem_iff.mp
      (List.mem_dedup.mpr (List.mem_map_of_mem key hx))

theorem prioritizeBy_ne_nil {α : Type} (key : α → Nat) (xs : List α)
    (h : xs ≠ []) : prioritizeBy key xs ≠ [] := by
  unfold prioritizeBy
  intro hmap
  have h1 : sortDesc ((xs.map key).dedup) = [] := List.map_eq_nil_iff.mp hmap
  have h2 : (xs.map key).dedup = [] := by
    have hp := (sortDesc_perm ((xs.map key).dedup)).symm
    rw [h1] at hp
    exact hp.eq_nil
  exact h (List.map_eq_nil_iff.mp ((List.dedup_eq_nil _).mp h2))

theorem prioritizeAndRunWith_ok_isSome
    (evc : Condition → Except ErrCode (Bool × Condition × List String))
    (eng : Option Engine) (conds : List Condition) (op : BoolOp)
    (res : Option Bool) (us : List Condition) (ts : List String)
    (h : prioritizeAndRunWith evc eng conds op = .ok (res, us, ts)) :
    res.isSome := by
  unfold prioritizeAndRunWith at h
  by_cases hc : conds.isEmpty
  · rw [if_pos hc] at h
    cases h
    rfl
  · rw [if_neg hc] at h
    cases hrt : runTiers
        (fun ic : Nat × Condition =>
          match evc ic.2 with
          | .error e => .error e
          | .ok (b, c2, t) => .ok (b, (ic.1, c2), t))
        op
        (prioritizeBy (fun ic : Nat × Condition => effectivePriority eng ic.2)
          conds.enum)
        none with
    | error e =>
      rw [hrt] at h
      dsimp only at h
      cases h
    | ok v =>
      obtain ⟨acc, updates, trace⟩ := v
      rw [hrt] at h
      dsimp only at h
      cases h
      refine runTiers_ok_isSome _ op _ none _ _ _ hrt (Or.inr ?_)
      refine prioritizeBy_ne_nil _ _ ?_
      intro henum
      have hnil : conds = [] := by
        cases conds with
        | nil => rfl
        | cons a as => simp [List.enum] at henum
      simp [hnil] at hc

/-! ### Helper lemmas about the definition-shape round trip -/

mutual
theorem conditionDef_roundtrip :
    ∀ d : ConditionDef, conditionDefOfCondition (mkConditionOfDef d) = d
  | .leafDef _ _ _ _ => rfl
  | .branchDef op cs p => by
    simp only [mkConditionOfDef, conditionDefOfCondition]
    rw [conditionDefs_roundtrip cs]
theorem conditionDefs_roundtrip :
    ∀ ds : List ConditionDef,
      conditionDefsOfConditions (mkConditionsOfDefs ds) = ds
  | [] => rfl
  | d :: ds => by
    simp only [mkConditionsOfDefs, conditionDefsOfConditions]
    rw [conditionDef_roundtrip d, conditionDefs_roundtrip ds]
end

theorem conditionDefsOfConditions_eq_map :
    ∀ cs : List Condition,
      conditionDefsOfConditions cs = cs.map conditionDefOfCondition
  | [] => rfl
  | c :: cs => by
    simp only [conditionDefsOfConditions, List.map_cons]
    rw [conditionDefsOfConditions_eq_map cs]

theorem mapDef_roundtrip :
    ∀ ds : List ConditionDef,
      (ds.map mkConditionOfDef).map conditionDefOfCondition = ds := by
  intro ds
  rw [List.map_map]
  have h : ∀ d ∈ ds, (conditionDefOfCondition ∘ mkConditionOfDef) d = id d :=
    fun d _ => conditionDef_roundtrip d
  rw [List.map_congr_left h, List.map_id]

theorem rootOptions_roundtrip (op : BoolOp) (cs : List Condition)
    (p : Option Nat) (r : Option Bool) :
    rootConditionsOptions (mkRootCondition (rootConditionsOptions (.branch op cs p r)))
      = rootConditionsOptions (.branch op cs p r) := by
  cases op <;> simp [rootConditionsOptions, mkRootCondition, mapDef_roundtrip] <;>
    exact fun a _ => conditionDef_roundtrip _

/-! ### The claims -/

/-- C1: during evaluation of a sibling condition list under an enclosing
operator, tiers are processed strictly in descending priority order
(the tier keys are strictly descending-sorted, and the tiers run in
exactly that order), and once a running value is determinative for the
operator — `true` under `any`, `false` under `all` — the tier chain
evaluates nothing further for any remaining (lower-priority) tier: no
update is produced, no fact resolution is traced, and the determinative
value is carried forward unchanged as the final aggregate. -/
theorem claim_C1 :
    (∀ (eng : Option Engine) (conds : List Condition),
      (tierPriorities eng conds).Sorted (· > ·)) ∧
    (∀ (eng : Option Engine) (conds : List Condition),
      prioritizeConditions eng conds
        = (tierPriorities eng conds).map
            (fun p => conds.filter (fun c => effectivePriority eng c == p))) ∧
    (∀ (α β : Type) (ev : α → Except ErrCode (Bool × β × List String))
        (op : BoolOp) (sets : List (List α)) (acc : Option Bool),
      (op = .any ∧ acc = some true) ∨ (op = .all ∧ acc = some false) →
      runTiers ev op sets acc = .ok (acc, [], [])) :=
  ⟨tierPriorities_sorted,
   fun _ _ => rfl,
   fun _ _ ev op sets acc h => runTiers_carry ev op acc h sets⟩

/-- C1 witness: a determinative `some true` under `any` short-circuits a
concrete two-tier chain — the result carries through with no updates and
no trace — and a concrete tier-key list is strictly descending. -/
theorem claim_C1_witness :
    (tierPriorities none [.leaf "a" "e" 0 (some 3) none none,
        .leaf "b" "e" 0 (some 1) none none]).Sorted (· > ·) ∧
    runTiers (fun n : Nat => .ok (true, n, ([] : List String))) .any
        [[1, 2], [3]] (some true)
      = .ok (some true, [], []) :=
  ⟨claim_C1.1 none [.leaf "a" "e" 0 (some 3) none none,
      .leaf "b" "e" 0 (some 1) none none],
   claim_C1.2.2 Nat Nat (fun n : Nat => .ok (true, n, ([] : List String)))
     .any [[1, 2], [3]] (some true) (Or.inl ⟨rfl, rfl⟩)⟩

/-- C2 counterexample: with `allowUndefinedFacts` set and a fact store
failing with `UNDEFINED_FACT`, the leaf contributes `false` and evaluation
continues — but the node is returned *unchanged*: its `result` annotation
stays unset (`none`), it does not become `false` as the claim states.  The
source's `.catch` handler (rule.ts 205–209) returns `false` without ever
assigning `condition.result`. -/
theorem claim_C2_cex :
    evaluateCondition (some undefFactEngine) undefFactAlmanac undefFactLeaf
      = .ok (false, undefFactLeaf, ["age"]) ∧
    conditionResultField undefFactLeaf ≠ some false :=
  ⟨rfl, by decide⟩

/-- C2 (amended): when a leaf's fact resolution fails, the error is
swallowed and `false` is contributed to the enclosing aggregate (with the
leaf returned unannotated) iff the engine's `allowUndefinedFacts` flag is
set and the error kind is `UNDEFINED_FACT`; otherwise the same rejection
propagates. -/
theorem claim_C2 (eng : Engine) (alm : Almanac) (f cmp : String)
    (v : FactValue) (p : Option Nat) (r : Option Bool) (fr : Option FactValue)
    (code : ErrCode) (hfail : alm.evalLeaf f cmp v = .failure code) :
    (eng.allowUndefinedFacts = true → code = undefinedFactCode →
      evaluateCondition (some eng) alm (.leaf f cmp v p r fr)
        = .ok (false, .leaf f cmp v p r fr, [f])) ∧
    ((eng.allowUndefinedFacts && (code == undefinedFactCode)) = false →
      evaluateCondition (some eng) alm (.leaf f cmp v p r fr) = .error code) := by
  have hw : evaluateCondition (some eng) alm (.leaf f cmp v p r fr)
      = evaluateLeaf (some eng) alm f cmp v p r fr := rfl
  constructor
  · intro ha hc
    rw [hw]
    simp [evaluateLeaf, hfail, ha, hc]
  · intro hb
    rw [hw]
    simp only [evaluateLeaf, hfail]
    rw [hb]
    rfl

/-- C2 witness: the recoverable case at a concrete input. -/
theorem claim_C2_witness :
    evaluateCondition (some undefFactEngine) undefFactAlmanac
        (.leaf "x" "equal" 0 none none none)
      = .ok (false, .leaf "x" "equal" 0 none none none, ["x"]) :=
  (claim_C2 undefFactEngine undefFactAlmanac "x" "equal" 0 none none none
    "UNDEFINED_FACT" rfl).1 rfl rfl

/-- C5 counterexample: a definition carrying *both* a top-level `all` and a
top-level `any` key does not fail — the guard at rule.ts 76 rejects only
when *neither* key is present — contradicting the claim's "never both". -/
theorem claim_C5_cex :
    Rule.setConditions {} bothKeysOptions
      = .ok { conditions := some (mkRootCondition bothKeysOptions) } :=
  rfl

/-- C5 (amended): `setConditions(def)` fails with the validation error iff
`def` carries neither a top-level `all` nor a top-level `any` key; any
definition carrying at least one of the two keys (including both) has the
root Condition node constructed and stored, and the Rule is returned. -/
theorem claim_C5 (rule : Rule) (opts : ConditionsOptions) :
    (opts.all = none → opts.any = none →
      Rule.setConditions rule opts
        = .error "\"conditions\" root must contain a single instance of \"all\" or \"any\"") ∧
    ((opts.all.isSome || opts.any.isSome) = true →
      Rule.setConditions rule opts
        = .ok { rule with conditions := some (mkRootCondition opts) }) := by
  constructor
  · intro h1 h2
    simp [Rule.setConditions, h1, h2]
  · intro h
    have hg : (opts.all.isNone && opts.any.isNone) = false := by
      rcases Bool.or_eq_true_iff.mp h with h | h <;>
        simp [Option.isNone_iff_eq_none, Option.isSome_iff_exists] at h ⊢ <;>
        rcases h with ⟨x, hx⟩ <;> simp [hx]
    simp [Rule.setConditions, hg]

/-- C5 witness: the guard fires on a definition with neither key, and a
definition with exactly an `all` key is stored. -/
theorem claim_C5_witness :
    Rule.setConditions {} {}
      = .error "\"conditions\" root must contain a single instance of \"all\" or \"any\"" ∧
    Rule.setConditions {} { all := some [] }
      = .ok { conditions := some (mkRootCondition { all := some [] }) } :=
  ⟨(claim_C5 {} {}).1 rfl rfl, (claim_C5 {} { all := some [] }).2 rfl⟩

/-- C6: evaluating an empty sibling condition list yields the aggregate
`true` for both enclosing operators (rule.ts 249–251), with no conditions
updated and no facts resolved. -/
theorem claim_C6 (eng : Option Engine) (alm : Almanac) (op : BoolOp) :
    prioritizeAndRun eng alm [] op = .ok (some true, [], []) :=
  rfl

/-- C7: for an input whose integer parse is positive, `setPriority` stores
the parsed integer and returns the rule; for a parse `<= 0` it fails with
the validation error (and, the model being functional, the rule value it
was called on is unchanged — no store happens on the error path,
rule.ts 63–67). -/
theorem claim_C7 (rule : Rule) (input : PriorityInput) (i : Int)
    (hp : parseIntJS input = .num i) :
    (0 < i → Rule.setPriority rule input
        = .ok { rule with priority := some (JSNum.num i) }) ∧
    (i ≤ 0 → Rule.setPriority rule input
        = .error "Priority must be greater than zero") := by
  constructor
  · intro h
    unfold Rule.setPriority
    rw [hp]
    simp [jsLeZero, show ¬ i ≤ 0 by omega]
  · intro h
    unfold Rule.setPriority
    rw [hp]
    simp [jsLeZero, h]

/-- C7 witness: `3` is stored; `0` is rejected. -/
theorem claim_C7_witness :
    Rule.setPriority {} (.intParse 3) = .ok { priority := some (JSNum.num 3) } ∧
    Rule.setPriority {} (.intParse 0) = .error "Priority must be greater than zero" :=
  ⟨(claim_C7 {} (.intParse 3) 3 rfl).1 (by norm_num),
   (claim_C7 {} (.intParse 0) 0 rfl).2 (by norm_num)⟩

/-- C10: an input that does not parse to a number (`parseInt` yields `NaN`)
does not throw — `NaN <= 0` is false, so the guard passes — `NaN` is stored
as the rule's priority and the Rule is returned, leaving a priority that
violates the `priority >= 1` invariant. -/
theorem claim_C10 (rule : Rule) (input : PriorityInput)
    (h : parseIntJS input = .nan) :
    Rule.setPriority rule input = .ok { rule with priority := some JSNum.nan } ∧
    ¬ jsPriorityInvariant JSNum.nan := by
  constructor
  · unfold Rule.setPriority
    rw [h]
    rfl
  · rintro ⟨i, hi, _⟩
    exact JSNum.noConfusion hi

/-- C10 witness: a non-numeric string input. -/
theorem claim_C10_witness :
    Rule.setPriority {} PriorityInput.nonNumeric
        = .ok { priority := some JSNum.nan } ∧
    ¬ jsPriorityInvariant JSNum.nan :=
  claim_C10 {} PriorityInput.nonNumeric rfl

/-- C4 counterexample: a node with the *explicit* priority `0` does not
keep it — `!priority` is true for `0`, so the engine's fact-priority lookup
(`5` here) wins, and the node sorts into the `5` tier ahead of an explicit
`3`, where the claim ("the node's own explicit priority if present")
demands the `3` tier ahead of a `0` tier. -/
theorem claim_C4_cex :
    prioritizeConditions (some factPriorityFiveEngine)
        [zeroPriorityLeaf, threePriorityLeaf]
      = [[zeroPriorityLeaf], [threePriorityLeaf]] ∧
    [[zeroPriorityLeaf], [threePriorityLeaf]]
      ≠ [[threePriorityLeaf], [zeroPriorityLeaf]] := by
  refine ⟨rfl, ?_⟩
  intro h
  have h1 := congrArg (fun l => l.head?) h
  simp [zeroPriorityLeaf, threePriorityLeaf] at h1

/-- C4 (amended): `prioritizeConditions` resolves each node's effective
priority as the node's own explicit priority when present *and nonzero*
(an explicit `0` is falsy and is treated as absent); otherwise the
engine's fact-priority lookup (itself defaulting to `1` when the engine or
the fact or its priority is missing or the priority is `0`, and always `1`
for boolean sub-nodes, which have no fact); groups nodes by effective
priority; and emits the groups ordered by numeric priority strictly
descending, every node landing in exactly one group and nodes sharing a
tier preserving their relative input order (each tier is a sublist of the
input). -/
theorem claim_C4 :
    (∀ (eng : Option Engine) (c : Condition) (p : Nat),
      conditionPriority c = some p → p ≠ 0 → effectivePriority eng c = p) ∧
    (∀ (eng : Option Engine) (c : Condition),
      conditionPriority c = none ∨ conditionPriority c = some 0 →
      effectivePriority eng c = effectivePriority.factPriorityFallback eng c) ∧
    (∀ (eng : Option Engine) (op : BoolOp) (cs : List Condition)
        (r : Option Bool),
      effectivePriority eng (.branch op cs none r) = 1) ∧
    (∀ (e : Engine) (f cmp : String) (v : FactValue) (q : Nat)
        (r : Option Bool) (fr : Option FactValue),
      e.getFact f = some { priority := some q } → q ≠ 0 →
      effectivePriority (some e) (.leaf f cmp v none r fr) = q) ∧
    (∀ (eng : Option Engine) (conds : List Condition),
      prioritizeConditions eng conds
        = (tierPriorities eng conds).map
            (fun p => conds.filter (fun c => effectivePriority eng c == p))) ∧
    (∀ (eng : Option Engine) (conds : List Condition),
      (tierPriorities eng conds).Sorted (· > ·)) ∧
    (∀ (eng : Option Engine) (conds : List Condition),
      ((prioritizeConditions eng conds).flatten).Perm conds) ∧
    (∀ (eng : Option Engine) (conds : List Condition)
        (t : List Condition), t ∈ prioritizeConditions eng conds →
      t.Sublist conds) := by
  refine ⟨?_, ?_, ?_, ?_, fun _ _ => rfl, tierPriorities_sorted, ?_, ?_⟩
  · intro eng c p hp h0
    simp [effectivePriority, hp, h0]
  · intro eng c h
    rcases h with h | h <;> simp [effectivePriority, h]
  · intro eng op cs r
    cases eng <;>
      simp [effectivePriority, conditionPriority,
        effectivePriority.factPriorityFallback, conditionFact]
  · intro e f cmp v q r fr hf h0
    simp [effectivePriority, conditionPriority,
      effectivePriority.factPriorityFallback, conditionFact, hf, h0]
  · intro eng conds
    exact prioritizeBy_flatten_perm (effectivePriority eng) conds
  · intro eng conds t ht
    rcases List.mem_map.mp ht with ⟨p, _, rfl⟩
    exact List.filter_sublist conds

/-- C4 witness: a nonzero explicit priority is honored; the tiers of a
concrete list partition it. -/
theorem claim_C4_witness :
    effectivePriority none (.leaf "f" "e" 0 (some 7) none none) = 7 ∧
    ((prioritizeConditions none [.leaf "f" "e" 0 (some 7) none none]).flatten).Perm
      [.leaf "f" "e" 0 (some 7) none none] :=
  ⟨claim_C4.1 none (.leaf "f" "e" 0 (some 7) none none) 7 rfl (by norm_num),
   claim_C4.2.2.2.2.2.2.1 none [.leaf "f" "e" 0 (some 7) none none]⟩

/-- C8 counterexample: for a definition carrying conditions and both
listeners, the constructor's actual step order processes the *conditions
first* (rule.ts 39–41) and only then registers the listeners
(rule.ts 42–47) — the success listener is not registered before the
conditions are processed, contradicting the claim. -/
theorem claim_C8_cex :
    (Rule.construct listenerOptions).map Prod.snd = .ok listenerTrace ∧
    ¬ (listenerTrace.findIdx (fun s => s == BuildStep.successListenerAdded)
        < listenerTrace.findIdx (fun s => s == BuildStep.conditionsSet)) :=
  ⟨rfl, by decide⟩

/-- Every successful run of the constructor tail appends exactly the
priority and event steps to the steps it was given. -/
theorem constructTail_trace {r1 : Rule} {steps : List BuildStep}
    {opr : Option PriorityInput} {oe : Option RuleAction} {r : Rule}
    {tr : List BuildStep} (h : constructTail r1 steps opr oe = .ok (r, tr)) :
    tr = steps ++ [BuildStep.prioritySet, BuildStep.eventSet] := by
  unfold constructTail at h
  dsimp only at h
  split at h
  all_goals try split at h
  all_goals first
    | exact Except.noConfusion h
    | (cases h; rfl)

/-- C8 (amended): when a Rule is constructed from a definition containing
`onSuccess` / `onFailure` callables, those callables are registered
*after* the conditions of the definition are processed and *before* the
priority and the event are processed: every successful construction's
step trace is exactly conditions (when present), then the listener
registrations, then priority, then event. -/
theorem claim_C8 (opts : RuleOptions) (r : Rule) (tr : List BuildStep)
    (h : Rule.construct opts = .ok (r, tr)) :
    tr = (if opts.conditions.isSome then [BuildStep.conditionsSet] else [])
      ++ (if opts.onSuccess then [BuildStep.successListenerAdded] else [])
      ++ (if opts.onFailure then [BuildStep.failureListenerAdded] else [])
      ++ [BuildStep.prioritySet, BuildStep.eventSet] := by
  unfold Rule.construct at h
  dsimp only at h
  split at h
  · exact Except.noConfusion h
  · next r1 t1 heq =>
    have htr := constructTail_trace h
    cases hc : opts.conditions with
    | none =>
      rw [hc] at heq
      cases heq
      simp [htr, hc]
    | some c =>
      rw [hc] at heq
      dsimp only at heq
      cases hsc : Rule.setConditions {} c with
      | error e =>
        rw [hsc] at heq
        dsimp only [Except.map] at heq
        exact Except.noConfusion heq
      | ok rr =>
        rw [hsc] at heq
        dsimp only [Except.map] at heq
        cases heq
        simp [htr, hc]

/-- C8 witness: the trace characterization at the concrete listener
options. -/
theorem claim_C8_witness :
    listenerTrace
      = (if listenerOptions.conditions.isSome then [BuildStep.conditionsSet] else [])
        ++ (if listenerOptions.onSuccess then [BuildStep.successListenerAdded] else [])
        ++ (if listenerOptions.onFailure then [BuildStep.failureListenerAdded] else [])
        ++ [BuildStep.prioritySet, BuildStep.eventSet] :=
  claim_C8 listenerOptions listenerRule listenerTrace rfl

/-- C3: a failure other than the permitted undefined-fact case unwinds the
entire evaluation — if the tiered run of the root's children rejects, the
whole `evaluate` call rejects with that same error, so no Evaluation
Result (and no emission value) is produced; and every evaluation that does
resolve produces its rule result with the `result` field set to a boolean
together with exactly one emission, `success` iff that boolean is `true`
(the emission exists only on the resolved path, embedding that the
`.then(processResult)` handler of a rejected promise chain never runs,
rule.ts 303–319). -/
theorem claim_C3 :
    (∀ (rule : Rule) (alm : Almanac) (op : BoolOp) (cs : List Condition)
        (p : Option Nat) (r : Option Bool) (e : ErrCode),
      rule.conditions = some (.branch op cs p r) →
      prioritizeAndRun rule.engine alm cs op = .error e →
      Rule.evaluate rule alm = .error e) ∧
    (∀ (rule : Rule) (alm : Almanac) (rr : RuleResult) (em : Emission)
        (tr : List String),
      Rule.evaluate rule alm = .ok (rr, em, tr) →
      ∃ b : Bool, rr.result = some b ∧
        em = (if b then Emission.success rr.event else Emission.failure rr.event)) := by
  constructor
  · intro rule alm op cs p r e hc hp
    unfold Rule.evaluate
    rw [hc]
    dsimp only
    rw [hp]
  · intro rule alm rr em tr h
    unfold Rule.evaluate at h
    cases hc : rule.conditions with
    | none =>
      rw [hc] at h
      exact Except.noConfusion h
    | some conds =>
      rw [hc] at h
      cases conds with
      | leaf f cmp v p r fr =>
        dsimp only at h
        exact Except.noConfusion h
      | branch op cs p r =>
        dsimp only at h
        cases hp : prioritizeAndRun rule.engine alm cs op with
        | error e =>
          rw [hp] at h
          exact Except.noConfusion h
        | ok v =>
          obtain ⟨res, newCs, trace⟩ := v
          rw [hp] at h
          dsimp only at h
          have hsome : res.isSome :=
            prioritizeAndRunWith_ok_isSome _ rule.engine cs op res newCs trace hp
          obtain ⟨b, rfl⟩ := Option.isSome_iff_exists.mp hsome
          cases b <;>
            simp only [processResult, RuleResult.setResult] at h <;>
            cases h <;>
            first
              | exact ⟨true, rfl, by simp⟩
              | exact ⟨false, rfl, by simp⟩

/-- C3 witness: a generic `BOOM` rejection aborts a concrete evaluation
whole, and a concrete resolving evaluation carries a boolean result with
the matching emission. -/
theorem claim_C3_witness :
    Rule.evaluate failRule failAlmanac = .error "BOOM" ∧
    (∃ b : Bool, eligibleRuleResult.result = some b ∧
      Emission.success eligibleRuleResult.event
        = (if b then Emission.success eligibleRuleResult.event
           else Emission.failure eligibleRuleResult.event)) :=
  ⟨claim_C3.1 failRule failAlmanac .all [.leaf "f" "equal" 0 none none none]
      none none "BOOM" rfl rfl,
   claim_C3.2 eligibleRule eligibleAlmanac eligibleRuleResult
      (.success eligibleRuleResult.event) ["age"] rfl⟩

/-- C9: serializing a configured Rule (`toJSON`) and constructing a new
Rule from that serialization yields a Rule whose condition tree renders to
the identical definition shape and whose event and priority are identical.
A configured Rule here is one with a boolean root condition, an event, and
a priority satisfying the `priority >= 1` invariant (`p || 1` in the
constructor and the `NaN`-to-`null` rendering make larger domains not
round trip; the invariant excludes them). -/
theorem claim_C9 (rule : Rule) (op : BoolOp) (cs : List Condition)
    (p : Option Nat) (r : Option Bool) (i : Int) (a : RuleAction)
    (hc : rule.conditions = some (.branch op cs p r))
    (hp : rule.priority = some (.num i)) (hi : 1 ≤ i)
    (he : rule.event = some a) :
    ∃ (rule2 : Rule) (tr : List BuildStep),
      Rule.reconstruct rule = .ok (rule2, tr) ∧
      rule2.conditions.map rootConditionsOptions
        = rule.conditions.map rootConditionsOptions ∧
      rule2.event = rule.event ∧
      rule2.priority = rule.priority := by
  have h0 : (i == 0) = false := by
    simp only [beq_eq_false_iff_ne, ne_eq]
    omega
  have hle : decide (i ≤ 0) = false := by
    simp only [decide_eq_false_iff_not, not_le]
    omega
  refine ⟨{ priority := some (.num i),
            conditions := some (mkRootCondition (rootConditionsOptions (.branch op cs p r))),
            event := some a,
            engine := none },
          [BuildStep.conditionsSet, BuildStep.prioritySet, BuildStep.eventSet],
          ?_, ?_, ?_, ?_⟩
  · unfold Rule.reconstruct Rule.toJSON Rule.construct constructTail
    rw [hc, hp, he]
    cases op <;>
      simp [rootConditionsOptions, mkRootCondition, Rule.setConditions,
        jsonPriorityToInput, priorityInputFalsy, h0, Rule.setPriority,
        parseIntJS, jsLeZero, hle, Rule.setEvent, Except.map]
  · rw [hc]
    simp [rootOptions_roundtrip]
  · exact he.symm
  · exact hp.symm

/-- C9 witness: the round trip at a concrete configured rule. -/
theorem claim_C9_witness :
    ∃ (rule2 : Rule) (tr : List BuildStep),
      Rule.reconstruct roundtripRule = .ok (rule2, tr) ∧
      rule2.conditions.map rootConditionsOptions
        = roundtripRule.conditions.map rootConditionsOptions ∧
      rule2.event = roundtripRule.event ∧
      rule2.priority = roundtripRule.priority :=
  claim_C9 roundtripRule .all [.leaf "age" "gte" 18 none none none] none none 2
    { type := "eligible" } rfl rfl (by norm_num) rfl
